import Mathlib

/-!
Verification of the BSON binary-document codec (DuckDB `bson` extension).

The development shallowly embeds the C++ sources:
  * `extension/bson/bson_common.cpp`  — `GetValueSize`, `ValidateDocument`,
    `FindElement`, `GetArrayElement`, `ParsePath`, `TraversePath`;
  * `extension/bson/bson_functions/bson_type.cpp` (JSON→BSON part) —
    `JSONToBSONDocument`, `CastJSONToBSON`;
  * `bson_functions/bson_extract_string.cpp` — the string-value decoding.

Buffers are `List Nat` of byte values; machine integers are modelled as
`Nat`/`Int` with explicit truncation mod 2^32 / 2^64 where the C++ code
performs casts or unsigned wrap-around.
-/

namespace BSON

/-- Two's-complement reinterpretation of the low 32 bits of a natural number,
mirroring a C cast of an unsigned value to `int32_t`. -/
def int32OfNatTrunc (n : Nat) : Int :=
  let m := n % 4294967296
  if m < 2147483648 then (m : Int) else (m : Int) - 4294967296

/-- `BSONCommon::ReadInt32`: little-endian signed 32-bit read of the first
four bytes (call sites always have at least four bytes available; out of
range defaults are never reached from the embedded callers). -/
def readInt32 (b : List Nat) : Int :=
  int32OfNatTrunc (b.getD 0 0 + 256 * b.getD 1 0 + 65536 * b.getD 2 0 + 16777216 * b.getD 3 0)

/-- Little-endian 4-byte encoding of a natural number (used where the C++
code `memcpy`s an `int32_t`). -/
def le32n (n : Nat) : List Nat :=
  [n % 256, n / 256 % 256, n / 65536 % 256, n / 16777216 % 256]

/-- Little-endian 8-byte encoding of a natural number (used where the C++
code `memcpy`s an `int64_t` or a `double` bit pattern). -/
def le64n (n : Nat) : List Nat :=
  [n % 256, n / 256 % 256, n / 65536 % 256, n / 16777216 % 256,
   n / 4294967296 % 256, n / 1099511627776 % 256,
   n / 281474976710656 % 256, n / 72057594037927936 % 256]

/-- Unsigned 64-bit subtraction with wrap-around, mirroring `idx_t -=` in C++. -/
def wrapSub (a b : Nat) : Nat :=
  (a + (18446744073709551616 - b % 18446744073709551616)) % 18446744073709551616

/-- `BSONCommon::GetValueSize(type, value, remaining)`.  The `value` argument
is the byte window starting at the value position, exactly `remaining` bytes
long (the code never reads beyond `remaining` before bounds checks pass).
Returns the byte size of the value, or 0 for the malformed signal. -/
def getValueSize (t : Nat) (v : List Nat) : Nat :=
  let remaining := v.length
  if remaining < 1 then 0
  else if t = 0x01 then 8                     -- DOUBLE
  else if t = 0x02 ∨ t = 0x0D ∨ t = 0x0E then -- STRING, JAVASCRIPT, SYMBOL
    if remaining < 4 then 0
    else
      let sl := readInt32 v
      if sl < 1 ∨ sl > int32OfNatTrunc remaining - 4 then 0 else (4 + sl).toNat
  else if t = 0x03 ∨ t = 0x04 then            -- DOCUMENT, ARRAY
    if remaining < 4 then 0
    else
      let dl := readInt32 v
      if dl < 5 ∨ dl > int32OfNatTrunc remaining then 0 else dl.toNat
  else if t = 0x05 then                       -- BINARY
    if remaining < 5 then 0
    else
      let bl := readInt32 v
      if bl < 0 ∨ bl > int32OfNatTrunc remaining - 5 then 0 else (5 + bl).toNat
  else if t = 0x06 then 0                     -- UNDEFINED (deprecated, no value)
  else if t = 0x07 then 12                    -- OBJECT_ID
  else if t = 0x08 then 1                     -- BOOLEAN
  else if t = 0x09 then 8                     -- DATE_TIME
  else if t = 0x0A then 0                     -- NULL_VALUE (no value)
  else if t = 0x0B then                       -- REGEX: two NUL-terminated cstrings
    let i1 := v.findIdx (fun b => b == 0)
    if i1 ≥ remaining then 0
    else
      let p := i1 + 1
      let i2 := p + (v.drop p).findIdx (fun b => b == 0)
      if i2 ≥ remaining then 0 else i2 + 1
  else if t = 0x0C then                       -- DB_POINTER
    if remaining < 4 then 0
    else
      let sl := readInt32 v
      if sl < 1 ∨ sl > int32OfNatTrunc remaining - 16 then 0 else (4 + sl + 12).toNat
  else if t = 0x0F then                       -- JAVASCRIPT_WITH_SCOPE
    if remaining < 4 then 0
    else
      let tl := readInt32 v
      if tl < 14 ∨ tl > int32OfNatTrunc remaining then 0 else tl.toNat
  else if t = 0x10 then 4                     -- INT32
  else if t = 0x11 then 8                     -- TIMESTAMP
  else if t = 0x12 then 8                     -- INT64
  else if t = 0x13 then 16                    -- DECIMAL128
  else if t = 0xFF ∨ t = 0x7F then 0          -- MIN_KEY, MAX_KEY
  else 0                                      -- unrecognized tag

/-- The element-scanning loop of `BSONCommon::ValidateDocument`.  `fuel` only
bounds the recursion; each iteration advances `pos` by at least three bytes,
so `fuel = docLen` can never be exhausted before the loop condition fails. -/
def validateLoop (data : List Nat) (docLen : Nat) : Nat → Nat → Bool
  | 0, _ => false
  | fuel + 1, pos =>
    if pos < docLen - 1 then
      if pos ≥ data.length then false
      else
        let t := data.getD pos 0
        let p1 := pos + 1
        let keyLen := ((data.drop p1).take (docLen - p1)).findIdx (fun b => b == 0)
        let keyEnd := p1 + keyLen
        if keyEnd ≥ docLen then false
        else
          let vpos := keyEnd + 1
          let remaining := docLen - vpos
          let vs := getValueSize t ((data.drop vpos).take remaining)
          if vs = 0 ∨ vs > remaining then false
          else validateLoop data docLen fuel (vpos + vs)
    else pos == docLen - 1

/-- `BSONCommon::ValidateDocument(data, size)`. -/
def validateDocument (data : List Nat) : Bool :=
  if data.length < 5 then false
  else
    let docLen := readInt32 data
    if docLen < 5 ∨ (data.length : Int) < docLen then false
    else
      let dl := docLen.toNat
      if data.getD (dl - 1) 0 ≠ 0 then false
      else validateLoop data dl dl 4

/-- One element of a document: type tag, key bytes (without the structural
NUL) and value bytes, mirroring the `BSONElement` view struct. -/
structure BSONElement where
  type : Nat
  key : List Nat
  value : List Nat
deriving DecidableEq, Repr

/-- The scanning loop of `BSONCommon::FindElement`; same fuel discipline as
`validateLoop`. -/
def findLoop (data : List Nat) (docLen : Nat) (key : List Nat) :
    Nat → Nat → Option BSONElement
  | 0, _ => none
  | fuel + 1, pos =>
    if pos < docLen - 1 then
      let t := data.getD pos 0
      let p1 := pos + 1
      let keyLen := ((data.drop p1).take (docLen - p1)).findIdx (fun b => b == 0)
      let keyEnd := p1 + keyLen
      if keyEnd ≥ docLen then none
      else
        let ekey := (data.drop p1).take keyLen
        let vpos := keyEnd + 1
        let remaining := docLen - vpos
        let slice := (data.drop vpos).take remaining
        let vs := getValueSize t slice
        if vs = 0 ∨ vs > remaining then none
        else if ekey == key then some ⟨t, ekey, slice.take vs⟩
        else findLoop data docLen key fuel (vpos + vs)
    else none

/-- `BSONCommon::FindElement(doc_data, doc_size, key, key_len, result)`:
linear scan for the first top-level field whose key equals `key` byte for
byte.  `none` models a `false` return. -/
def findElement (data : List Nat) (key : List Nat) : Option BSONElement :=
  if data.length < 5 then none
  else
    let docLen := readInt32 data
    if docLen < 5 ∨ (data.length : Int) < docLen then none
    else findLoop data docLen.toNat key docLen.toNat 4

/-- Decimal byte string of a natural number, mirroring `std::to_string`. -/
def natToDecimalBytes (n : Nat) : List Nat :=
  (Nat.toDigits 10 n).map Char.toNat

/-- `BSONCommon::GetArrayElement`: array index `i` is looked up as the
decimal key string of `i`. -/
def getArrayElement (data : List Nat) (index : Nat) : Option BSONElement :=
  findElement data (natToDecimalBytes index)

/-- The string-value decoding of `bson_functions/bson_extract_string.cpp`:
requires a string tag, reads the length prefix, strips the trailing NUL. -/
def bsonExtractStringValue (e : BSONElement) : Option (List Nat) :=
  if e.type ≠ 0x02 then none
  else
    let sl := readInt32 e.value
    if sl < 1 then none
    else some ((e.value.drop 4).take (sl.toNat - 1))

/-- `BSONCommon::PathSegment`: an object key (byte string) or an array index. -/
inductive PathSeg where
  | key (k : List Nat)
  | idx (n : Nat)
deriving DecidableEq, Repr

/-- The distinct `InvalidInputException` messages thrown by
`BSONCommon::ParsePath`, one constructor per throw site. -/
inductive PathError where
  | mustStartDollar   -- "BSON path must start with dollar"
  | endsWithDot       -- "BSON path ends with dot"
  | emptyKey          -- "Empty key in BSON path"
  | unclosedQuote     -- "Unclosed quoted key in BSON path"
  | endsWithBracket   -- "BSON path ends with bracket"
  | invalidIndex      -- "Invalid array index in BSON path"
  | unexpectedChar    -- "Unexpected character in BSON path"
deriving DecidableEq, Repr

/-- A byte in the ASCII digit range, as tested by `path[pos] >= '0' && path[pos] <= '9'`. -/
def isDigitByte (b : Nat) : Bool := 48 ≤ b && b ≤ 57

/-- The scanning loop of `BSONCommon::ParsePath` after the leading dollar.
Byte 46 is the dot, 91 and 93 the square brackets, 34 the double quote.
`fuel` only bounds recursion; each recursive call consumes at least one
byte, so `fuel` = remaining length + 1 can never run out. -/
def parseSteps : Nat → List Nat → List PathSeg → Except PathError (List PathSeg)
  | 0, _, _ => .error .unexpectedChar
  | _ + 1, [], acc => .ok acc.reverse
  | fuel + 1, 46 :: rest, acc =>
    match rest with
    | [] => .error .endsWithDot
    | c :: r2 =>
      if c == 34 then
        let k := r2.takeWhile (fun b => b ≠ 34)
        let r3 := r2.dropWhile (fun b => b ≠ 34)
        if k.isEmpty then .error .emptyKey
        else
          match r3 with
          | 34 :: r4 => parseSteps fuel r4 (.key k :: acc)
          | _ => .error .unclosedQuote
      else
        let k := rest.takeWhile (fun b => b ≠ 46 ∧ b ≠ 91)
        let r2' := rest.dropWhile (fun b => b ≠ 46 ∧ b ≠ 91)
        if k.isEmpty then .error .emptyKey
        else parseSteps fuel r2' (.key k :: acc)
  | fuel + 1, 91 :: rest, acc =>
    match rest with
    | [] => .error .endsWithBracket
    | _ :: _ =>
      let ds := rest.takeWhile isDigitByte
      let r2 := rest.dropWhile isDigitByte
      if ds.isEmpty then .error .invalidIndex
      else
        match r2 with
        | 93 :: r3 => parseSteps fuel r3 (.idx (ds.foldl (fun a b => a * 10 + (b - 48)) 0) :: acc)
        | _ => .error .invalidIndex
  | _ + 1, _ :: _, _ => .error .unexpectedChar

/-- `BSONCommon::ParsePath(path, len, segments)`.  A zero-length input
returns immediately (before the dollar check); otherwise the input must
start with byte 36 (the dollar sign). -/
def parsePath (p : List Nat) : Except PathError (List PathSeg) :=
  match p with
  | [] => .ok []
  | 36 :: rest => parseSteps (p.length + 1) rest []
  | _ :: _ => .error .mustStartDollar

instance {ε α : Type} [DecidableEq ε] [DecidableEq α] : DecidableEq (Except ε α) := fun a b =>
  match a, b with
  | .error e, .error f =>
    if h : e = f then isTrue (h ▸ rfl) else isFalse (fun hh => h (by injection hh))
  | .error _, .ok _ => isFalse (fun hh => Except.noConfusion hh)
  | .ok _, .error _ => isFalse (fun hh => Except.noConfusion hh)
  | .ok x, .ok y =>
    if h : x = y then isTrue (h ▸ rfl) else isFalse (fun hh => h (by injection hh))

/-- Segment resolution inside `BSONCommon::TraversePath`: a key segment uses
`FindElement`, an index segment uses `GetArrayElement`. -/
def findSeg (data : List Nat) : PathSeg → Option BSONElement
  | .key k => findElement data k
  | .idx n => getArrayElement data n

/-- The non-empty case of `BSONCommon::TraversePath`: resolve each segment in
order; for every segment except the last, the resolved element must be a
document (0x03) or array (0x04), and traversal descends into its value bytes. -/
def traverseAux (data : List Nat) : List PathSeg → Option BSONElement
  | [] => none
  | [s] => findSeg data s
  | s :: rest =>
    match findSeg data s with
    | none => none
    | some e =>
      if e.type = 0x03 ∨ e.type = 0x04 then traverseAux e.value rest else none

/-- `BSONCommon::TraversePath(doc_data, doc_size, segments, result)`.  The
`Bool` is the C++ return value; the `Option BSONElement` is the `result`
out-parameter as observed by callers (it is only read when the return value
is `true`, and after an empty segment list it was never written). -/
def traversePath (data : List Nat) (segs : List PathSeg) : Bool × Option BSONElement :=
  match segs with
  | [] => (true, none)
  | _ :: _ =>
    match traverseAux data segs with
    | some e => (true, some e)
    | none => (false, none)

/-! ## The JSON-like value tree and the encoder

The encoder's input is the parsed `yyjson` tree: null, bool, number
(with the reader's subtypes: real, signed integer — produced only for
literals with a minus sign — and unsigned integer, produced for all
non-negative integer literals), string, array and object nodes; `jraw`
stands for any other `yyjson` node type, which hits the encoder's
`default:` throw.  The real payload is carried as its 8-byte IEEE bit
pattern, which is all the encoder ever touches of it. -/

mutual
inductive JSONValue where
  | jnull
  | jbool (b : Bool)
  | jreal (bits : Nat)
  | jsint (i : Int)
  | juint (u : Nat)
  | jstr (s : List Nat)
  | jarr (xs : JSONList)
  | jobj (fs : JSONFields)
  | jraw
deriving DecidableEq, Repr

inductive JSONList where
  | nil
  | cons (v : JSONValue) (rest : JSONList)
deriving DecidableEq, Repr

inductive JSONFields where
  | nil
  | cons (k : List Nat) (v : JSONValue) (rest : JSONFields)
deriving DecidableEq, Repr
end

mutual
/-- `JSONToBSONDocument(obj, dest, max_size)` from
`bson_functions/bson_type.cpp`.  `.error ()` models a thrown
`InvalidInputException`; `.ok bytes` models a successful return with the
written document bytes.  The object-property iteration
(`yyjson_obj_iter`) yields nothing for a non-object input — in
particular for an array — because `yyjson_obj_iter_init` zeroes the
iterator when `yyjson_is_obj` fails, so for every non-object node the
loop body never runs and an empty document is emitted. -/
def jsonToBSONDocument (v : JSONValue) (maxSize : Nat) : Except Unit (List Nat) :=
  if maxSize < 5 then .error ()
  else
    match v with
    | .jobj fs =>
      match encodeFields fs (wrapSub maxSize 4) with
      | .error e => .error e
      | .ok (body, rem) =>
        if rem < 1 then .error ()
        else .ok (le32n ((4 + body.length + 1) % 4294967296) ++ body ++ [0])
    | _ =>
      if wrapSub maxSize 4 < 1 then .error ()
      else .ok (le32n 5 ++ [0])
termination_by structural v

/-- The per-field loop of `JSONToBSONDocument`: returns the bytes written
for the fields together with the final value of `remaining` (an `idx_t`,
updated with wrap-around).  Byte accounting follows the C++ exactly:
`remaining < key_len + 3` is checked before each element, and each case
subtracts what it wrote. -/
def encodeFields : JSONFields → Nat → Except Unit (List Nat × Nat)
  | .nil, rem => .ok ([], rem)
  | .cons k v rest, rem =>
    if rem < k.length + 3 then .error ()
    else
      match v with
      | .jnull =>
        match encodeFields rest (wrapSub rem (k.length + 2)) with
        | .error e => .error e
        | .ok (b, r) => .ok (0x0A :: (k ++ [0] ++ b), r)
      | .jbool bv =>
        match encodeFields rest (wrapSub rem (k.length + 3)) with
        | .error e => .error e
        | .ok (b, r) => .ok (0x08 :: (k ++ [0] ++ [if bv then 1 else 0] ++ b), r)
      | .jreal bits =>
        match encodeFields rest (wrapSub rem (k.length + 10)) with
        | .error e => .error e
        | .ok (b, r) => .ok (0x01 :: (k ++ [0] ++ le64n (bits % 18446744073709551616) ++ b), r)
      | .jsint i =>
        if -2147483648 ≤ i ∧ i ≤ 2147483647 then
          match encodeFields rest (wrapSub rem (k.length + 6)) with
          | .error e => .error e
          | .ok (b, r) => .ok (0x10 :: (k ++ [0] ++ le32n (i % 4294967296).toNat ++ b), r)
        else
          match encodeFields rest (wrapSub rem (k.length + 10)) with
          | .error e => .error e
          | .ok (b, r) => .ok (0x12 :: (k ++ [0] ++ le64n (i % 18446744073709551616).toNat ++ b), r)
      | .juint u =>
        match encodeFields rest (wrapSub rem (k.length + 10)) with
        | .error e => .error e
        | .ok (b, r) => .ok (0x12 :: (k ++ [0] ++ le64n (u % 18446744073709551616) ++ b), r)
      | .jstr s =>
        match encodeFields rest (wrapSub rem (k.length + s.length + 7)) with
        | .error e => .error e
        | .ok (b, r) =>
          .ok (0x02 :: (k ++ [0] ++ le32n ((s.length + 1) % 4294967296) ++ s ++ [0] ++ b), r)
      | .jarr _ =>
        match jsonToBSONDocument v rem with
        | .error e => .error e
        | .ok sub =>
          match encodeFields rest (wrapSub rem (k.length + sub.length + 2)) with
          | .error e => .error e
          | .ok (b, r) => .ok (0x04 :: (k ++ [0] ++ sub ++ b), r)
      | .jobj _ =>
        match jsonToBSONDocument v rem with
        | .error e => .error e
        | .ok sub =>
          match encodeFields rest (wrapSub rem (k.length + sub.length + 2)) with
          | .error e => .error e
          | .ok (b, r) => .ok (0x03 :: (k ++ [0] ++ sub ++ b), r)
      | .jraw => .error ()
termination_by structural fs _ => fs
end

/-- Whether a node is an array or object, as tested by
`yyjson_is_obj(root) || yyjson_is_arr(root)` in `CastJSONToBSON`. -/
def isContainer : JSONValue → Bool
  | .jarr _ => true
  | .jobj _ => true
  | _ => false

/-- `CastJSONToBSON` from `bson_functions/bson_type.cpp`, per row, after
JSON parsing: reject a non-container root, allocate a buffer of
`2 * json_text_size + 1024` bytes, convert, and on any thrown conversion
error discard the buffer and produce NULL (`none`).  `jsonLen` is the
byte length of the JSON source text. -/
def castJSONToBSON (t : JSONValue) (jsonLen : Nat) : Option (List Nat) :=
  if isContainer t then
    match jsonToBSONDocument t ((2 * jsonLen + 1024) % 18446744073709551616) with
    | .ok out => some out
    | .error _ => none
  else none

mutual
/-- Whether every node of the tree is one of the supported kinds
(null, bool, number, string, array, object) — i.e. `jraw` free. -/
def supportedV : JSONValue → Bool
  | .jraw => false
  | .jarr xs => supportedL xs
  | .jobj fs => supportedF fs
  | _ => true
def supportedL : JSONList → Bool
  | .nil => true
  | .cons v rest => supportedV v && supportedL rest
def supportedF : JSONFields → Bool
  | .nil => true
  | .cons _ v rest => supportedV v && supportedF rest
end

mutual
/-- The exact number of bytes `JSONToBSONDocument` writes for a tree
(paper accounting of the code's per-case byte counts). -/
def bsonDocSize : JSONValue → Nat
  | .jobj fs => 5 + bsonFieldsSize fs
  | _ => 5
def bsonFieldsSize : JSONFields → Nat
  | .nil => 0
  | .cons k v rest => k.length + 2 + bsonValueSize v + bsonFieldsSize rest
def bsonValueSize : JSONValue → Nat
  | .jnull => 0
  | .jbool _ => 1
  | .jreal _ => 8
  | .jsint i => if -2147483648 ≤ i ∧ i ≤ 2147483647 then 4 else 8
  | .juint _ => 8
  | .jstr s => s.length + 5
  | .jarr _ => 5
  | .jobj fs => 5 + bsonFieldsSize fs
  | .jraw => 0
end

mutual
/-- Modelled from the spec: the JSON text parser is an out-of-scope
collaborator ("treated as a capability that already yields a tree of
null, bool, number, string, array, object nodes").  This function gives a
lower bound on the byte length of any JSON text that the parser could
turn into the given tree: `null` is 4 bytes, `true`/`false` 4/5, a real
literal at least 3 (`0.1`), an integer literal at least 1 digit (plus a
sign when negative — 1 is already a lower bound), a string at least its
byte length plus 2 quotes (escapes only lengthen the text), an array or
object at least brackets plus separators plus its parts.  `jraw` never
arises from the parser; its bound is 0. -/
def jsonMinLen : JSONValue → Nat
  | .jnull => 4
  | .jbool true => 4
  | .jbool false => 5
  | .jreal _ => 3
  | .jsint _ => 1
  | .juint _ => 1
  | .jstr s => s.length + 2
  | .jarr .nil => 2
  | .jarr xs => 1 + jsonMinLenList xs
  | .jobj .nil => 2
  | .jobj fs => 1 + jsonMinLenFields fs
  | .jraw => 0
def jsonMinLenList : JSONList → Nat
  | .nil => 0
  | .cons v rest => jsonMinLen v + 1 + jsonMinLenList rest
def jsonMinLenFields : JSONFields → Nat
  | .nil => 0
  | .cons k v rest => k.length + 4 + jsonMinLen v + jsonMinLenFields rest
end

/-! ## Encoder correctness apparatus -/

theorem wrapSub_eq_sub {a b : Nat} (hb : b ≤ a) (ha : a < 18446744073709551616) :
    wrapSub a b = a - b := by
  unfold wrapSub
  have hb' : b % 18446744073709551616 = b := Nat.mod_eq_of_lt (lt_of_le_of_lt hb ha)
  rw [hb']
  have h2 : a + (18446744073709551616 - b) = (a - b) + 18446744073709551616 := by omega
  rw [h2, Nat.add_mod_right]
  exact Nat.mod_eq_of_lt (by omega)

theorem le32n_length (n : Nat) : (le32n n).length = 4 := rfl

theorem le64n_length (n : Nat) : (le64n n).length = 8 := rfl

/-! Hand-stated one-step unfolding equations for the encoder (each holds
by `rfl`; they substitute for the auto-generated equation lemmas). -/

theorem jsonToBSONDocument_obj (fs : JSONFields) (cap : Nat) :
    jsonToBSONDocument (.jobj fs) cap =
      if cap < 5 then .error ()
      else
        match encodeFields fs (wrapSub cap 4) with
        | .error e => .error e
        | .ok (body, rem) =>
          if rem < 1 then .error ()
          else .ok (le32n ((4 + body.length + 1) % 4294967296) ++ body ++ [0]) := rfl

theorem encodeFields_nil (rem : Nat) : encodeFields .nil rem = .ok ([], rem) := rfl

theorem encodeFields_cons_null (k : List Nat) (rest : JSONFields) (rem : Nat) :
    encodeFields (.cons k .jnull rest) rem =
      if rem < k.length + 3 then .error ()
      else
        match encodeFields rest (wrapSub rem (k.length + 2)) with
        | .error e => .error e
        | .ok (b, r) => .ok (0x0A :: (k ++ [0] ++ b), r) := rfl

theorem encodeFields_cons_bool (k : List Nat) (bv : Bool) (rest : JSONFields) (rem : Nat) :
    encodeFields (.cons k (.jbool bv) rest) rem =
      if rem < k.length + 3 then .error ()
      else
        match encodeFields rest (wrapSub rem (k.length + 3)) with
        | .error e => .error e
        | .ok (b, r) => .ok (0x08 :: (k ++ [0] ++ [if bv then 1 else 0] ++ b), r) := rfl

theorem encodeFields_cons_real (k : List Nat) (bits : Nat) (rest : JSONFields) (rem : Nat) :
    encodeFields (.cons k (.jreal bits) rest) rem =
      if rem < k.length + 3 then .error ()
      else
        match encodeFields rest (wrapSub rem (k.length + 10)) with
        | .error e => .error e
        | .ok (b, r) =>
          .ok (0x01 :: (k ++ [0] ++ le64n (bits % 18446744073709551616) ++ b), r) := rfl

theorem encodeFields_cons_sint (k : List Nat) (i : Int) (rest : JSONFields) (rem : Nat) :
    encodeFields (.cons k (.jsint i) rest) rem =
      if rem < k.length + 3 then .error ()
      else
        if -2147483648 ≤ i ∧ i ≤ 2147483647 then
          match encodeFields rest (wrapSub rem (k.length + 6)) with
          | .error e => .error e
          | .ok (b, r) => .ok (0x10 :: (k ++ [0] ++ le32n (i % 4294967296).toNat ++ b), r)
        else
          match encodeFields rest (wrapSub rem (k.length + 10)) with
          | .error e => .error e
          | .ok (b, r) =>
            .ok (0x12 :: (k ++ [0] ++ le64n (i % 18446744073709551616).toNat ++ b), r) := rfl

theorem encodeFields_cons_uint (k : List Nat) (u : Nat) (rest : JSONFields) (rem : Nat) :
    encodeFields (.cons k (.juint u) rest) rem =
      if rem < k.length + 3 then .error ()
      else
        match encodeFields rest (wrapSub rem (k.length + 10)) with
        | .error e => .error e
        | .ok (b, r) =>
          .ok (0x12 :: (k ++ [0] ++ le64n (u % 18446744073709551616) ++ b), r) := rfl

theorem encodeFields_cons_str (k s : List Nat) (rest : JSONFields) (rem : Nat) :
    encodeFields (.cons k (.jstr s) rest) rem =
      if rem < k.length + 3 then .error ()
      else
        match encodeFields rest (wrapSub rem (k.length + s.length + 7)) with
        | .error e => .error e
        | .ok (b, r) =>
          .ok (0x02 :: (k ++ [0] ++ le32n ((s.length + 1) % 4294967296) ++ s ++ [0] ++ b), r) := rfl

theorem encodeFields_cons_arr (k : List Nat) (xs : JSONList) (rest : JSONFields) (rem : Nat) :
    encodeFields (.cons k (.jarr xs) rest) rem =
      if rem < k.length + 3 then .error ()
      else
        match jsonToBSONDocument (.jarr xs) rem with
        | .error e => .error e
        | .ok sub =>
          match encodeFields rest (wrapSub rem (k.length + sub.length + 2)) with
          | .error e => .error e
          | .ok (b, r) => .ok (0x04 :: (k ++ [0] ++ sub ++ b), r) := rfl

theorem encodeFields_cons_obj (k : List Nat) (fs2 : JSONFields) (rest : JSONFields) (rem : Nat) :
    encodeFields (.cons k (.jobj fs2) rest) rem =
      if rem < k.length + 3 then .error ()
      else
        match jsonToBSONDocument (.jobj fs2) rem with
        | .error e => .error e
        | .ok sub =>
          match encodeFields rest (wrapSub rem (k.length + sub.length + 2)) with
          | .error e => .error e
          | .ok (b, r) => .ok (0x03 :: (k ++ [0] ++ sub ++ b), r) := rfl

theorem encodeFields_cons_raw (k : List Nat) (rest : JSONFields) (rem : Nat) :
    encodeFields (.cons k .jraw rest) rem =
      if rem < k.length + 3 then .error () else .error () := rfl

mutual
/-- With a supported tree and a capacity of at least the tree's encoded
size, `JSONToBSONDocument` does not throw, and writes exactly
`bsonDocSize v` bytes. -/
theorem jsonToBSONDocument_ok (v : JSONValue) (cap : Nat)
    (hs : supportedV v = true) (hle : bsonDocSize v ≤ cap)
    (hcap : cap < 18446744073709551616) :
    ∃ out, jsonToBSONDocument v cap = .ok out ∧ out.length = bsonDocSize v := by
  cases v
  case jobj fs =>
    have hsz : bsonDocSize (.jobj fs) = 5 + bsonFieldsSize fs := by simp [bsonDocSize]
    rw [hsz] at hle
    have h5 : ¬ cap < 5 := by omega
    have hws : wrapSub cap 4 = cap - 4 := wrapSub_eq_sub (by omega) hcap
    have hsf : supportedF fs = true := by simpa [supportedV] using hs
    obtain ⟨body, heq, hlen⟩ :=
      encodeFields_ok fs (cap - 4) hsf (by omega) (by omega)
    have hrem : ¬ (cap - 4 - bsonFieldsSize fs < 1) := by omega
    refine ⟨le32n ((4 + body.length + 1) % 4294967296) ++ body ++ [0], ?_, ?_⟩
    · rw [jsonToBSONDocument_obj, if_neg h5, hws, heq]
      simp only [if_neg hrem]
    · simp [le32n, hlen, hsz]
      omega
  case jraw => simp [supportedV] at hs
  all_goals {
    simp only [bsonDocSize] at hle
    have h5 : ¬ cap < 5 := by omega
    have hws : ¬ wrapSub cap 4 < 1 := by
      rw [wrapSub_eq_sub (by omega) hcap]
      omega
    refine ⟨le32n 5 ++ [0], ?_, ?_⟩
    · show (if cap < 5 then (Except.error () : Except Unit (List Nat))
            else if wrapSub cap 4 < 1 then Except.error ()
            else Except.ok (le32n 5 ++ [0])) = Except.ok (le32n 5 ++ [0])
      rw [if_neg h5, if_neg hws]
    · simp [le32n, bsonDocSize]
  }

/-- The field loop writes exactly `bsonFieldsSize fs` bytes and
decrements `remaining` by the same amount, provided the fields are
supported and `remaining` exceeds their size (the one spare byte is the
document terminator, which always lies ahead of the loop and is what
makes the conservative `remaining < key_len + 3` pre-check pass for a
null field). -/
theorem encodeFields_ok (fs : JSONFields) (rem : Nat)
    (hs : supportedF fs = true) (hle : bsonFieldsSize fs + 1 ≤ rem)
    (hrem : rem < 18446744073709551616) :
    ∃ body, encodeFields fs rem = .ok (body, rem - bsonFieldsSize fs) ∧
      body.length = bsonFieldsSize fs := by
  cases fs
  case nil => exact ⟨[], by simp [encodeFields_nil, bsonFieldsSize], by simp [bsonFieldsSize]⟩
  case cons k v rest =>
    obtain ⟨hsv, hsrest⟩ : supportedV v = true ∧ supportedF rest = true := by
      simpa [supportedF, Bool.and_eq_true] using hs
    simp only [bsonFieldsSize] at hle ⊢
    have hk3 : ¬ rem < k.length + 3 := by
      have := Nat.zero_le (bsonValueSize v); omega
    cases v
    case jnull =>
      simp only [bsonValueSize] at hle ⊢
      have hws : wrapSub rem (k.length + 2) = rem - (k.length + 2) :=
        wrapSub_eq_sub (by omega) hrem
      obtain ⟨b, heq, hlen⟩ :=
        encodeFields_ok rest (rem - (k.length + 2)) hsrest (by omega) (by omega)
      refine ⟨0x0A :: (k ++ [0] ++ b), ?_, by simp [hlen] ; omega⟩
      rw [encodeFields_cons_null, if_neg hk3, hws, heq]
      simp only [Except.ok.injEq, Prod.mk.injEq, true_and] ; omega
    case jbool bv =>
      simp only [bsonValueSize] at hle ⊢
      have hws : wrapSub rem (k.length + 3) = rem - (k.length + 3) :=
        wrapSub_eq_sub (by omega) hrem
      obtain ⟨b, heq, hlen⟩ :=
        encodeFields_ok rest (rem - (k.length + 3)) hsrest (by omega) (by omega)
      refine ⟨0x08 :: (k ++ [0] ++ [if bv then 1 else 0] ++ b), ?_, by simp [hlen] ; omega⟩
      rw [encodeFields_cons_bool, if_neg hk3, hws, heq]
      simp only [Except.ok.injEq, Prod.mk.injEq, true_and] ; omega
    case jreal bits =>
      simp only [bsonValueSize] at hle ⊢
      have hws : wrapSub rem (k.length + 10) = rem - (k.length + 10) :=
        wrapSub_eq_sub (by omega) hrem
      obtain ⟨b, heq, hlen⟩ :=
        encodeFields_ok rest (rem - (k.length + 10)) hsrest (by omega) (by omega)
      refine ⟨0x01 :: (k ++ [0] ++ le64n (bits % 18446744073709551616) ++ b), ?_,
        by simp [hlen, le64n] ; omega⟩
      rw [encodeFields_cons_real, if_neg hk3, hws, heq]
      simp only [Except.ok.injEq, Prod.mk.injEq, true_and] ; omega
    case jsint i =>
      by_cases hr : -2147483648 ≤ i ∧ i ≤ 2147483647
      · simp only [bsonValueSize, if_pos hr] at hle ⊢
        have hws : wrapSub rem (k.length + 6) = rem - (k.length + 6) :=
          wrapSub_eq_sub (by omega) hrem
        obtain ⟨b, heq, hlen⟩ :=
          encodeFields_ok rest (rem - (k.length + 6)) hsrest (by omega) (by omega)
        refine ⟨0x10 :: (k ++ [0] ++ le32n (i % 4294967296).toNat ++ b), ?_,
          by simp [hlen, le32n] ; omega⟩
        rw [encodeFields_cons_sint, if_neg hk3, if_pos hr, hws, heq]
        simp only [Except.ok.injEq, Prod.mk.injEq, true_and] ; omega
      · simp only [bsonValueSize, if_neg hr] at hle ⊢
        have hws : wrapSub rem (k.length + 10) = rem - (k.length + 10) :=
          wrapSub_eq_sub (by omega) hrem
        obtain ⟨b, heq, hlen⟩ :=
          encodeFields_ok rest (rem - (k.length + 10)) hsrest (by omega) (by omega)
        refine ⟨0x12 :: (k ++ [0] ++ le64n (i % 18446744073709551616).toNat ++ b), ?_,
          by simp [hlen, le64n] ; omega⟩
        rw [encodeFields_cons_sint, if_neg hk3, if_neg hr, hws, heq]
        simp only [Except.ok.injEq, Prod.mk.injEq, true_and] ; omega
    case juint u =>
      simp only [bsonValueSize] at hle ⊢
      have hws : wrapSub rem (k.length + 10) = rem - (k.length + 10) :=
        wrapSub_eq_sub (by omega) hrem
      obtain ⟨b, heq, hlen⟩ :=
        encodeFields_ok rest (rem - (k.length + 10)) hsrest (by omega) (by omega)
      refine ⟨0x12 :: (k ++ [0] ++ le64n (u % 18446744073709551616) ++ b), ?_,
        by simp [hlen, le64n] ; omega⟩
      rw [encodeFields_cons_uint, if_neg hk3, hws, heq]
      simp only [Except.ok.injEq, Prod.mk.injEq, true_and] ; omega
    case jstr s =>
      simp only [bsonValueSize] at hle ⊢
      have hws : wrapSub rem (k.length + s.length + 7) = rem - (k.length + s.length + 7) :=
        wrapSub_eq_sub (by omega) hrem
      obtain ⟨b, heq, hlen⟩ :=
        encodeFields_ok rest (rem - (k.length + s.length + 7)) hsrest (by omega) (by omega)
      refine ⟨0x02 :: (k ++ [0] ++ le32n ((s.length + 1) % 4294967296) ++ s ++ [0] ++ b), ?_,
        by simp [hlen, le32n] ; omega⟩
      rw [encodeFields_cons_str, if_neg hk3, hws, heq]
      simp only [Except.ok.injEq, Prod.mk.injEq, true_and] ; omega
    case jarr xs =>
      simp only [bsonValueSize] at hle ⊢
      obtain ⟨sub, hseq, hslen⟩ :=
        jsonToBSONDocument_ok (.jarr xs) rem hsv (by simp [bsonDocSize]; omega) hrem
      have hslen5 : sub.length = 5 := by simpa [bsonDocSize] using hslen
      have hws : wrapSub rem (k.length + sub.length + 2) = rem - (k.length + 7) := by
        rw [hslen5]
        rw [wrapSub_eq_sub (by omega) hrem]
      obtain ⟨b, heq, hlen⟩ :=
        encodeFields_ok rest (rem - (k.length + 7)) hsrest (by omega) (by omega)
      refine ⟨0x04 :: (k ++ [0] ++ sub ++ b), ?_, by simp [hlen, hslen5] ; omega⟩
      rw [encodeFields_cons_arr, if_neg hk3, hseq]
      simp only []
      rw [hws, heq]
      simp only [Except.ok.injEq, Prod.mk.injEq, true_and] ; omega
    case jobj fs2 =>
      simp only [bsonValueSize] at hle ⊢
      obtain ⟨sub, hseq, hslen⟩ :=
        jsonToBSONDocument_ok (.jobj fs2) rem hsv (by simp [bsonDocSize]; omega) hrem
      have hslen2 : sub.length = 5 + bsonFieldsSize fs2 := by
        simpa [bsonDocSize] using hslen
      have hws : wrapSub rem (k.length + sub.length + 2) =
          rem - (k.length + 7 + bsonFieldsSize fs2) := by
        rw [hslen2, wrapSub_eq_sub (by omega) hrem] ; omega
      obtain ⟨b, heq, hlen⟩ :=
        encodeFields_ok rest (rem - (k.length + 7 + bsonFieldsSize fs2)) hsrest
          (by omega) (by omega)
      refine ⟨0x03 :: (k ++ [0] ++ sub ++ b), ?_, by simp [hlen, hslen2] ; omega⟩
      rw [encodeFields_cons_obj, if_neg hk3, hseq]
      simp only []
      rw [hws, heq]
      simp only [Except.ok.injEq, Prod.mk.injEq, true_and] ; omega
    case jraw => simp [supportedV] at hsv
end

/-! ## The size of the encoding against the size of the JSON text -/

mutual
/-- Each encoded value is at most twice its minimal JSON text plus 6. -/
theorem bsonValueSize_le (v : JSONValue) :
    bsonValueSize v ≤ 2 * jsonMinLen v + 6 := by
  cases v
  case jnull => simp [bsonValueSize, jsonMinLen]
  case jbool b => cases b <;> simp [bsonValueSize, jsonMinLen]
  case jreal bits => simp [bsonValueSize, jsonMinLen]
  case jsint i => simp only [bsonValueSize, jsonMinLen]; split <;> omega
  case juint u => simp [bsonValueSize, jsonMinLen]
  case jstr s => simp [bsonValueSize, jsonMinLen]; omega
  case jarr xs => cases xs <;> simp [bsonValueSize, jsonMinLen]
  case jobj fs =>
    cases fs
    case nil => simp [bsonValueSize, bsonFieldsSize, jsonMinLen]
    case cons k v rest =>
      have h := bsonFieldsSize_le (.cons k v rest)
      simp only [bsonValueSize, jsonMinLen]
      omega
  case jraw => simp [bsonValueSize, jsonMinLen]

/-- The encoded fields are at most twice their minimal JSON text. -/
theorem bsonFieldsSize_le (fs : JSONFields) :
    bsonFieldsSize fs ≤ 2 * jsonMinLenFields fs := by
  cases fs
  case nil => simp [bsonFieldsSize, jsonMinLenFields]
  case cons k v rest =>
    have h1 := bsonValueSize_le v
    have h2 := bsonFieldsSize_le rest
    simp only [bsonFieldsSize, jsonMinLenFields]
    omega
end

/-- A whole encoded document is at most twice its minimal JSON text plus 6. -/
theorem bsonDocSize_le (v : JSONValue) : bsonDocSize v ≤ 2 * jsonMinLen v + 6 := by
  cases v
  case jobj fs =>
    have h := bsonValueSize_le (.jobj fs)
    simpa [bsonDocSize, bsonValueSize] using h
  case jbool b => cases b <;> simp [bsonDocSize, jsonMinLen]
  case jarr xs => cases xs <;> simp [bsonDocSize, jsonMinLen]
  all_goals simp [bsonDocSize, jsonMinLen]

/-! ## A relational description of path navigation -/

/-- `Resolves d segs e`: starting from document bytes `d`, applying the
segments in order resolves to element `e`, where every segment before the
last must resolve to a document- or array-tagged element whose value
bytes become the next container. -/
inductive Resolves : List Nat → List PathSeg → BSONElement → Prop where
  | last {d : List Nat} {s : PathSeg} {e : BSONElement} :
      findSeg d s = some e → Resolves d [s] e
  | step {d : List Nat} {s : PathSeg} {e e2 : BSONElement} {rest : List PathSeg} :
      findSeg d s = some e → (e.type = 0x03 ∨ e.type = 0x04) →
      rest ≠ [] → Resolves e.value rest e2 → Resolves d (s :: rest) e2

theorem traverseAux_iff (segs : List PathSeg) :
    ∀ (d : List Nat) (e : BSONElement), segs ≠ [] →
      (traverseAux d segs = some e ↔ Resolves d segs e) := by
  induction segs with
  | nil => intro d e h; exact absurd rfl h
  | cons s rest ih =>
    intro d e _
    cases rest with
    | nil =>
      constructor
      · intro h
        exact .last h
      · intro h
        cases h with
        | last hf => exact hf
        | step hf ht hne hr => exact absurd rfl hne
    | cons s2 rest2 =>
      constructor
      · intro h
        simp only [traverseAux] at h
        cases hf : findSeg d s with
        | none => rw [hf] at h; exact absurd h (by simp)
        | some e1 =>
          rw [hf] at h
          simp only [] at h
          by_cases hty : e1.type = 0x03 ∨ e1.type = 0x04
          · rw [if_pos hty] at h
            exact .step hf hty (by simp) ((ih e1.value e (by simp)).mp h)
          · rw [if_neg hty] at h
            exact absurd h (by simp)
      · intro h
        cases h with
        | step hf hty hne hr =>
          simp only [traverseAux, hf, if_pos hty]
          exact (ih _ e (by simp)).mpr hr

/-! ## Claim theorems -/

/-- C1: the claim says a document containing a null (0x0A), undefined
(0x06), min-key (0xFF) or max-key (0x7F) element validates true, the
zero-byte size not being the malformed signal.  The code contradicts it:
`GetValueSize` returns 0 for all four tags and `ValidateDocument`
(`value_size == 0` check) treats that 0 as malformed, so each such
document — here `{a: <tag>}`, 8 bytes — is rejected. -/
theorem c1_null_like_tags_fail_validation :
    getValueSize 0x0A [0] = 0 ∧ getValueSize 0x06 [0] = 0 ∧
    getValueSize 0xFF [0] = 0 ∧ getValueSize 0x7F [0] = 0 ∧
    validateDocument [8,0,0,0, 0x0A, 97, 0, 0] = false ∧
    validateDocument [8,0,0,0, 0x06, 97, 0, 0] = false ∧
    validateDocument [8,0,0,0, 0xFF, 97, 0, 0] = false ∧
    validateDocument [8,0,0,0, 0x7F, 97, 0, 0] = false := by decide

/-- C2: the round-trip property fails on the code: the supported tree
`{"a": null}` (JSON text of length 10) encodes to the 8-byte document
`08 00 00 00 0A 61 00 00`, which `ValidateDocument` rejects, because the
validator treats the null value's 0-byte size as the malformed signal. -/
theorem c2_roundtrip_violated_by_null :
    castJSONToBSON (.jobj (.cons [97] .jnull .nil)) 10
      = some [8,0,0,0, 0x0A, 97, 0, 0] ∧
    validateDocument [8,0,0,0, 0x0A, 97, 0, 0] = false := by decide

/-- C3: the claim says an array encodes as a 0x04-tagged container with
one field per element keyed "0","1",….  The code instead iterates the
array node with the object iterator, which yields nothing, so
`{"a": [true]}` (JSON text of length 12) encodes with an *empty*
document as the array's value, and index lookup of element 0 fails. -/
theorem c3_encoder_drops_array_elements :
    castJSONToBSON (.jobj (.cons [97] (.jarr (.cons (.jbool true) .nil)) .nil)) 12
      = some [13,0,0,0, 0x04, 97, 0, 5,0,0,0,0, 0] ∧
    findElement [13,0,0,0, 0x04, 97, 0, 5,0,0,0,0, 0] [97]
      = some ⟨0x04, [97], [5,0,0,0,0]⟩ ∧
    getArrayElement [5,0,0,0,0] 0 = none := by decide

/-- C4 counterexample: encoding `{"a": 2147483647}` (a non-negative JSON
integer literal, hence an unsigned node; JSON text of length 16) yields
field tag 0x12 (int64), not 0x10 (int32) as the claim states. -/
theorem c4_counterexample :
    (castJSONToBSON (.jobj (.cons [97] (.juint 2147483647) .nil)) 16).map
        (fun l => l.getD 4 0) = some 0x12 ∧
    (castJSONToBSON (.jobj (.cons [97] (.juint 2147483647) .nil)) 16).map
        (fun l => l.getD 4 0) ≠ some 0x10 := by decide

/-- C4 amended: a signed (negative-literal) integer node is emitted as
int32 exactly when it lies in the signed 32-bit range — so -2147483648
gets tag 0x10 and -2147483649 tag 0x12 — while every unsigned
(non-negative-literal) integer node is emitted as int64 (tag 0x12)
regardless of magnitude, so both 2147483647 and 2147483648 get tag 0x12. -/
theorem c4_amended :
    ((castJSONToBSON (.jobj (.cons [97] (.juint 2147483647) .nil)) 16).map
        (fun l => l.getD 4 0) = some 0x12) ∧
    ((castJSONToBSON (.jobj (.cons [97] (.juint 2147483648) .nil)) 16).map
        (fun l => l.getD 4 0) = some 0x12) ∧
    ((castJSONToBSON (.jobj (.cons [97] (.jsint (-2147483648)) .nil)) 17).map
        (fun l => l.getD 4 0) = some 0x10) ∧
    ((castJSONToBSON (.jobj (.cons [97] (.jsint (-2147483649)) .nil)) 18).map
        (fun l => l.getD 4 0) = some 0x12) ∧
    (∀ i : Int, (encodeFields (.cons [97] (.jsint i) .nil) 1000).toOption.map
        (fun p => p.1.getD 0 0)
      = some (if -2147483648 ≤ i ∧ i ≤ 2147483647 then 0x10 else 0x12)) ∧
    (∀ u : Nat, (encodeFields (.cons [97] (.juint u) .nil) 1000).toOption.map
        (fun p => p.1.getD 0 0) = some 0x12) := by
  refine ⟨by decide, by decide, by decide, by decide, ?_, ?_⟩
  · intro i
    by_cases hr : -2147483648 ≤ i ∧ i ≤ 2147483647
    · rw [encodeFields_cons_sint, if_neg (by decide : ¬ (1000 < List.length [97] + 3)),
        if_pos hr, encodeFields_nil, if_pos hr]
      simp [Except.toOption]
    · rw [encodeFields_cons_sint, if_neg (by decide : ¬ (1000 < List.length [97] + 3)),
        if_neg hr, encodeFields_nil, if_neg hr]
      simp [Except.toOption]
  · intro u
    rw [encodeFields_cons_uint, if_neg (by decide : ¬ (1000 < List.length [97] + 3)),
      encodeFields_nil]
    simp [Except.toOption]

/-- C5: for every supported JSON-like tree with an array or object root,
parsed from a JSON text of length `jsonLen` (any such text is at least
`jsonMinLen t` bytes long), the cast's fixed `2*jsonLen + 1024` buffer
never runs out: the encode succeeds as a whole.  Failure (`none`) is
all-or-nothing by construction of the embedding — the C++ caller catches
the conversion exception, frees the buffer and hands back NULL, never a
partially written buffer. -/
theorem c5_encode_succeeds_for_supported_trees (t : JSONValue) (jsonLen : Nat)
    (hsup : supportedV t = true) (hcont : isContainer t = true)
    (hmin : jsonMinLen t ≤ jsonLen)
    (hcap : 2 * jsonLen + 1024 < 18446744073709551616) :
    ∃ out, castJSONToBSON t jsonLen = some out ∧ out.length = bsonDocSize t := by
  have hcap' : (2 * jsonLen + 1024) % 18446744073709551616 = 2 * jsonLen + 1024 :=
    Nat.mod_eq_of_lt hcap
  have hb : bsonDocSize t ≤ 2 * jsonLen + 1024 := by
    have h1 := bsonDocSize_le t
    omega
  obtain ⟨out, heq, hlen⟩ := jsonToBSONDocument_ok t (2 * jsonLen + 1024) hsup hb hcap
  refine ⟨out, ?_, hlen⟩
  simp [castJSONToBSON, hcont, hcap', heq]

theorem c5_witness :
    ∃ out, castJSONToBSON (.jobj (.cons [97] .jnull .nil)) 10 = some out ∧
      out.length = bsonDocSize (.jobj (.cons [97] .jnull .nil)) :=
  c5_encode_succeeds_for_supported_trees (.jobj (.cons [97] .jnull .nil)) 10
    (by decide) (by decide) (by decide) (by decide)

/-- C6 counterexample: on the empty segment list, `TraversePath` returns
`true` (the loop body never runs) without producing an element — it does
not fail as the claim states. -/
theorem c6_counterexample : traversePath [5,0,0,0,0] [] = (true, none) := rfl

/-- C6 amended: `TraversePath` succeeds vacuously on the empty segment
list, returning `true` without ever writing the result element; on a
non-empty segment list it succeeds with element `e` exactly when the
segments resolve strictly in order, each non-final segment through a
document- or array-tagged element into that element's value bytes
(`Resolves`); anything else is a whole-navigation failure. -/
theorem c6_amended :
    (∀ d : List Nat, traversePath d [] = (true, none)) ∧
    (∀ (d : List Nat) (segs : List PathSeg) (e : BSONElement),
      traversePath d segs = (true, some e) ↔ Resolves d segs e) := by
  constructor
  · intro d
    rfl
  · intro d segs e
    cases segs with
    | nil =>
      constructor
      · intro h
        simp [traversePath] at h
      · intro h
        cases h
    | cons s rest =>
      constructor
      · intro h
        simp only [traversePath] at h
        cases ht : traverseAux d (s :: rest) with
        | none => rw [ht] at h; exact absurd h (by simp)
        | some e1 =>
          rw [ht] at h
          have he : e1 = e := by simpa using h
          rw [he] at ht
          exact (traverseAux_iff (s :: rest) d e (by simp)).mp ht
      · intro h
        have ht := (traverseAux_iff (s :: rest) d e (by simp)).mpr h
        simp only [traversePath, ht]

/-- C7 counterexample: the empty path string does not raise a
path-syntax error — `ParsePath` special-cases length 0 before the
leading-dollar check and returns successfully with no segments. -/
theorem c7_counterexample : parsePath [] = .ok [] := rfl

/-- C7 amended: the empty string parses successfully to an empty segment
list; the one-byte string `$` (byte 36) also parses to the empty segment
list; every *non-empty* string not beginning with `$` raises the
path-must-start-with-dollar error. -/
theorem c7_amended :
    parsePath [] = .ok [] ∧ parsePath [36] = .ok [] ∧
    (∀ (b : Nat) (p : List Nat), b ≠ 36 →
      parsePath (b :: p) = .error .mustStartDollar) := by
  refine ⟨rfl, rfl, ?_⟩
  intro b p hb
  unfold parsePath
  split <;> simp_all

theorem c7_witness : parsePath [97] = .error .mustStartDollar :=
  c7_amended.2.2 97 [] (by decide)

/-- C8: the literal validator and locator vectors: every buffer shorter
than 5 bytes is invalid; `05 00 00 00 00` validates true;
`04 00 00 00 00` validates false; the 20-byte document with the single
string field `name`="John" validates true, lookup of key `name` yields
the string-tagged element whose decoded value is `John`, and lookup of
key `missing` fails. -/
theorem c8_literal_vectors :
    (∀ data : List Nat, data.length < 5 → validateDocument data = false) ∧
    validateDocument [5,0,0,0,0] = true ∧
    validateDocument [4,0,0,0,0] = false ∧
    validateDocument [0x14,0,0,0, 0x02, 0x6e,0x61,0x6d,0x65,0, 5,0,0,0,
      0x4a,0x6f,0x68,0x6e,0, 0] = true ∧
    findElement [0x14,0,0,0, 0x02, 0x6e,0x61,0x6d,0x65,0, 5,0,0,0,
        0x4a,0x6f,0x68,0x6e,0, 0] [0x6e,0x61,0x6d,0x65]
      = some ⟨0x02, [0x6e,0x61,0x6d,0x65], [5,0,0,0, 0x4a,0x6f,0x68,0x6e,0]⟩ ∧
    (findElement [0x14,0,0,0, 0x02, 0x6e,0x61,0x6d,0x65,0, 5,0,0,0,
        0x4a,0x6f,0x68,0x6e,0, 0] [0x6e,0x61,0x6d,0x65]).bind bsonExtractStringValue
      = some [0x4a,0x6f,0x68,0x6e] ∧
    findElement [0x14,0,0,0, 0x02, 0x6e,0x61,0x6d,0x65,0, 5,0,0,0,
      0x4a,0x6f,0x68,0x6e,0, 0] [0x6d,0x69,0x73,0x73,0x69,0x6e,0x67] = none := by
  refine ⟨?_, by decide, by decide, by decide, by decide, by decide, by decide⟩
  intro data h
  unfold validateDocument
  rw [if_pos h]

theorem c8_witness :
    ([1,2] : List Nat).length < 5 ∧ validateDocument [1,2] = false :=
  ⟨by decide, c8_literal_vectors.1 [1,2] (by decide)⟩

/-- C9: `ValidateDocument` does not recurse into nested documents: the
13-byte outer document carries field `a` whose document-tagged value
`05 00 00 00 FF` has a valid length prefix but a nonzero terminator;
the outer document validates true while the nested value itself
validates false. -/
theorem c9_validator_skips_nested :
    validateDocument [13,0,0,0, 0x03, 97, 0, 5,0,0,0,0xFF, 0] = true ∧
    findElement [13,0,0,0, 0x03, 97, 0, 5,0,0,0,0xFF, 0] [97]
      = some ⟨0x03, [97], [5,0,0,0,0xFF]⟩ ∧
    validateDocument [5,0,0,0,0xFF] = false := by decide

/-- C10: `FindElement` never inspects the terminator byte at
`declared_length - 1`: on the 20-byte buffer whose final byte is 0xFF,
validation fails yet key lookup of `name` still succeeds. -/
theorem c10_find_ignores_terminator :
    ([0x14,0,0,0, 0x02, 0x6e,0x61,0x6d,0x65,0, 5,0,0,0,
      0x4a,0x6f,0x68,0x6e,0, 0xFF] : List Nat).getD 19 0 = 0xFF ∧
    validateDocument [0x14,0,0,0, 0x02, 0x6e,0x61,0x6d,0x65,0, 5,0,0,0,
      0x4a,0x6f,0x68,0x6e,0, 0xFF] = false ∧
    findElement [0x14,0,0,0, 0x02, 0x6e,0x61,0x6d,0x65,0, 5,0,0,0,
        0x4a,0x6f,0x68,0x6e,0, 0xFF] [0x6e,0x61,0x6d,0x65]
      = some ⟨0x02, [0x6e,0x61,0x6d,0x65], [5,0,0,0, 0x4a,0x6f,0x68,0x6e,0]⟩ := by
  decide

end BSON